import Mathlib

/-!
Verification of the exposure / noise model of `pandeia.engine.exposure`
(`ExposureSpecification`, `ExposureSpecificationTA`).

Shallow embedding conventions:
* Python floats are modelled by `ℚ` (all the formulas under scrutiny are
  exact rational arithmetic on the inputs).
* Integer parameters (`ngroup`, `nint`, ...) are `ℕ` and are cast into `ℚ`
  inside the formulas, mirroring Python's exact int→float promotion; where
  the Python code can compute a negative value (e.g. `nextract - 1`) the
  subtraction is performed in `ℤ` or `ℚ`, never with truncated `ℕ`
  subtraction.
* `numpy` masked arrays are modelled as `List (Option ℚ)`: `none` is a
  masked entry.  Masked-array division is domain-guarded in numpy
  (`_DomainSafeDivide` masks where the divisor is zero); this is the
  `mdiv` helper below.  `ma.filled(..., fill_value=np.nan)` turns masked
  entries into NaN, so in the model `none` in an output array is the NaN
  sentinel.
* The in-place updates of `slope_variance` (`n = ma.copy(...)`,
  `n[unsat_pixels] -= nprerej`, `n -= npostrej`) are embedded with an
  explicit store (`List MArr` of array cells addressed by index), so that
  the frame claims about mutation are actual theorems and not artifacts of
  purity.
-/

namespace Pandeia

/-- A numpy masked array of floats: `none` is a masked element. -/
def MArr : Type := List (Option ℚ)

instance : DecidableEq MArr := by
  unfold MArr
  infer_instance

instance : Append MArr := by
  unfold MArr
  infer_instance

/-- Domain-guarded division of numpy masked arrays: a quotient whose
divisor is zero becomes a masked element (numpy `_DomainSafeDivide`). -/
def mdiv (a b : ℚ) : Option ℚ :=
  if b = 0 then none else some (a / b)

/-- Embedding of `np.clip(x, lo, hi)`: `min (max x lo) hi` (note numpy applies the lower
bound first, so `lo > hi` yields `hi`). -/
def npclip (x lo hi : ℚ) : ℚ :=
  min (max x lo) hi

/-- Embedding of `np.max` of a slope array (the Python call requires a nonempty array;
the `[]` case is arbitrary and never exercised by the theorems). -/
def listMax : List ℚ → ℚ
  | [] => 0
  | x :: xs => xs.foldl max x

/-- Pointwise combination of three equally shaped arrays (numpy
broadcasting of the per-pixel noise formula). -/
def zipWith3 (f : α → β → γ → δ) : List α → List β → List γ → List δ
  | a :: as, b :: bs, c :: cs => f a b c :: zipWith3 f as bs cs
  | _, _, _ => []

/-- Exceptions of the engine: `valueError` is Python's `ValueError`
(the spec's `ConfigurationError`), `engineInputError` is
`pandeia.engine.custom_exceptions.EngineInputError` (the spec's
`InputError`). -/
inductive Err : Type where
  | valueError : String → Err
  | engineInputError : String → Err
deriving DecidableEq, Repr

instance {ε α : Type} [DecidableEq ε] [DecidableEq α] : DecidableEq (Except ε α) := fun a b =>
  match a, b with
  | .ok x, .ok y =>
    match decEq x y with
    | isTrue h => isTrue (by rw [h])
    | isFalse h => isFalse fun hc => h (Except.ok.inj hc)
  | .error x, .error y =>
    match decEq x y with
    | isTrue h => isTrue (by rw [h])
    | isFalse h => isFalse fun hc => h (Except.error.inj hc)
  | .ok _, .error _ => isFalse fun hc => Except.noConfusion hc
  | .error _, .ok _ => isFalse fun hc => Except.noConfusion hc

/-- True exactly on an error result (an exception escaped the call). -/
def isErr : Except Err α → Bool
  | .error _ => true
  | .ok _ => false

/-- True exactly when the call raised an `EngineInputError`. -/
def isInputErr : Except Err α → Bool
  | .error (.engineInputError _) => true
  | _ => false

/-- True exactly when the call raised the configuration `ValueError`. -/
def isConfigErr : Except Err α → Bool
  | .error (.valueError _) => true
  | _ => false

/-- The constructor arguments of `ExposureSpecification.__init__`
(defaults are supplied at call sites). -/
structure ExposureInputs : Type where
  pattern : String
  ngroup : ℕ
  nint : ℕ
  nexp : ℕ
  tframe : ℚ
  nframe : ℕ
  nsample : ℕ
  nsample_skip : ℕ
  tfffr : ℚ
  subarray : String
  nskip : ℕ
  nprerej : ℕ
  npostrej : ℕ
  frame0 : Bool
  det_type : String
deriving DecidableEq, Repr

/-- The timing attributes set by `get_times_nir` / `get_times_mir`. -/
structure DerivedTimes : Type where
  tgroup : ℚ
  measurement_time : ℚ
  exposure_time : ℚ
  saturation_time : ℚ
  duty_cycle : ℚ
  total_exposure_time : ℚ
  total_integrations : ℕ
deriving DecidableEq, Repr

/-- Embedding of `ExposureSpecification.get_times_nir` (exposure.py lines 118-135),
for the persistent (`h2rg`) detectors. -/
def get_times_nir (i : ExposureInputs) : DerivedTimes :=
  let tgroup : ℚ := i.tframe * ((i.nframe : ℚ) + (i.nskip : ℚ))
  let mt0 : ℚ := i.tframe * (i.nint : ℚ) * (((i.ngroup : ℚ) - 1) * ((i.nframe : ℚ) + (i.nskip : ℚ)))
  let measurement_time : ℚ :=
    if i.frame0 then mt0 + (1/2) * (i.nint : ℚ) * i.tframe * (i.nframe : ℚ) else mt0
  let exposure_time : ℚ :=
    (i.tframe + i.tfffr) * (i.nint : ℚ) +
      i.tframe * ((i.nint : ℚ) * (((i.ngroup : ℚ) - 1) * ((i.nframe : ℚ) + (i.nskip : ℚ)) + (i.nframe : ℚ)))
  let saturation_time : ℚ :=
    i.tfffr + i.tframe * (((i.ngroup : ℚ) - 1) * ((i.nframe : ℚ) + (i.nskip : ℚ)) + (i.nframe : ℚ))
  ⟨tgroup, measurement_time, exposure_time, saturation_time,
    measurement_time / exposure_time, (i.nexp : ℚ) * exposure_time, i.nexp * i.nint⟩

/-- Embedding of `ExposureSpecification.get_times_mir` (exposure.py lines 137-161),
for the sample-averaging (`sias`) detectors. -/
def get_times_mir (i : ExposureInputs) : DerivedTimes :=
  let tgroup : ℚ := i.tframe * ((i.nframe : ℚ) + (i.nskip : ℚ))
  let measurement_time : ℚ :=
    if 5 ≤ i.ngroup then
      (i.nint : ℚ) * ((i.ngroup : ℚ) - 1 - ((i.nprerej : ℚ) + (i.npostrej : ℚ))) * tgroup
    else
      (i.nint : ℚ) * (i.tfffr + (i.ngroup : ℚ) * tgroup) -
        (i.nint : ℚ) * i.tframe * (1/2) * ((i.nframe : ℚ) - 1)
  let exposure_time : ℚ := (i.nint : ℚ) * (i.tfffr + (i.ngroup : ℚ) * (i.nframe : ℚ) * i.tframe)
  let saturation_time : ℚ := i.tfffr + (i.ngroup : ℚ) * (i.nframe : ℚ) * i.tframe
  ⟨tgroup, measurement_time, exposure_time, saturation_time,
    measurement_time / exposure_time, (i.nexp : ℚ) * exposure_time, i.nexp * i.nint⟩

/-- The constructed `ExposureSpecification` object: inputs, the derived
timing attributes, `nramps`, and - for `sias` detectors only - the pair
`(tsample, nsample_total)` (`mirExtra = none` models the `hasattr`
pattern used downstream for the persistent detectors). -/
structure ExpSpec : Type where
  inputs : ExposureInputs
  times : DerivedTimes
  nramps : ℕ
  mirExtra : Option (ℚ × ℕ)
deriving DecidableEq, Repr

/-- Embedding of `ExposureSpecification.__init__` (exposure.py lines 15-116): detector
dispatch, derived times, `tsample`/`nsample_total` for `sias`, `nramps`. -/
def mkExposureSpecification (i : ExposureInputs) : Except Err ExpSpec :=
  if i.det_type = "sias" then
    .ok ⟨i, get_times_mir i, i.nint * i.nexp,
      some (i.tframe / ((i.nsample : ℚ) + (i.nsample_skip : ℚ)), i.nframe * i.nsample)⟩
  else if i.det_type = "h2rg" then
    .ok ⟨i, get_times_nir i, i.nint * i.nexp, none⟩
  else
    .error (.valueError "Unknown detector type")

/-- Effective read count used in the noise formulas: `nsample_total` when
present (`sias`), else `nframe` (the `hasattr` branch of the source). -/
def eff_m (s : ExpSpec) : ℕ :=
  match s.mirExtra with
  | some (_, nst) => nst
  | none => s.inputs.nframe

/-- Effective frame time used in the noise formulas: `tsample` when
present (`sias`), else `tframe`. -/
def eff_tframe (s : ExpSpec) : ℚ :=
  match s.mirExtra with
  | some (ts, _) => ts
  | none => s.inputs.tframe

/-- Per-pixel valid-group count of `get_unsaturated_groups`
(exposure.py lines 194-202): `M` is `np.max(slope)`, the slope is clipped
to `[1e-10, M]`, and the resulting fractional group count is floored and
clipped to `[0, ngroup]`.  The clipped slope is zero only when
`np.max(slope) = 0`; there numpy produces `fullwell / 0 = +inf` (the
theorems assume `0 < fullwell`), which floors and clips to `ngroup`. -/
def pixel_count (sat_time : ℚ) (ngroup : ℕ) (fullwell M s : ℚ) : ℚ :=
  let c : ℚ := npclip s (1 / 10 ^ 10) M
  if c = 0 then (ngroup : ℚ)
  else npclip ((⌊fullwell / c / sat_time * (ngroup : ℚ)⌋ : ℤ) : ℚ) 0 (ngroup : ℚ)

/-- Embedding of `ExposureSpecification.get_unsaturated_groups` (exposure.py lines
163-206): the valid-group counts, masked (`ma.masked_less`) strictly below
`full_saturation`. -/
def get_unsaturated_groups (spec : ExpSpec) (slope : List ℚ) (fullwell full_saturation : ℚ) :
    MArr :=
  slope.map fun s =>
    let v := pixel_count spec.times.saturation_time spec.inputs.ngroup fullwell (listMax slope) s
    if v < full_saturation then none else some v

/-- Modelled from the spec's words for the C3 comparison: the same
computation but with the slope "clipped to a strictly positive floor of
1e-10" only (no upper clip at `np.max(slope)`). -/
def unsat_groups_specwords (spec : ExpSpec) (slope : List ℚ) (fullwell full_saturation : ℚ) :
    MArr :=
  slope.map fun s =>
    let c : ℚ := max s (1 / 10 ^ 10)
    let v : ℚ :=
      npclip ((⌊fullwell / c / spec.times.saturation_time * (spec.inputs.ngroup : ℚ)⌋ : ℤ) : ℚ)
        0 (spec.inputs.ngroup : ℚ)
    if v < full_saturation then none else some v

/-- Per-pixel body of `rn_variance` (exposure.py lines 355-367): the base
read-noise variance, the `rn_fudge` multiplier, and the excess-variance
term.  `m` and `tgroup` are the effective read count and group time;
`msqrt` stands for `np.sqrt(m)` (irrational in general, hence a
parameter). -/
def rn_variance_pix (m tgroup rn msqrt rn_fudge excessp1 excessp2 : ℚ) (nO : Option ℚ) :
    Option ℚ :=
  match nO with
  | none => none
  | some n =>
    match mdiv (12 * rn ^ 2) (m * n * (n ^ 2 - 1) * tgroup ^ 2) with
    | none => none
    | some base =>
      let v1 := if rn_fudge ≠ 1 then base * rn_fudge else base
      if excessp1 ≠ 0 ∨ excessp2 ≠ 0 then
        match mdiv (12 * (n - 1)) (n + 1) with
        | none => none
        | some r =>
          match mdiv (r * excessp1 ^ 2 - excessp2 / msqrt) (((1 - n) * tgroup) ^ 2) with
          | none => none
          | some excess => some (v1 + excess)
      else some v1

/-- Embedding of `ExposureSpecification.rn_variance` with an `unsat_ngroups` array
(exposure.py lines 299-367): the mutual-exclusion check of `rn_fudge`
vs `excessp1`/`excessp2` raises `ValueError` before any value is
computed. -/
def rn_variance (spec : ExpSpec) (readnoise msqrt : ℚ) (unsat_ngroups : MArr)
    (rn_fudge excessp1 excessp2 : ℚ) : Except Err MArr :=
  if rn_fudge ≠ 1 ∧ (excessp1 ≠ 0 ∨ excessp2 ≠ 0) then
    .error (.valueError "Only one of rn_fudge or excessp1/p2 maybe used, not both.")
  else
    .ok (unsat_ngroups.map
      (rn_variance_pix (eff_m spec : ℚ) spec.times.tgroup readnoise msqrt
        rn_fudge excessp1 excessp2))

/-- Embedding of `ExposureSpecification.rn_variance` in its `unsat_ngroups=None`
branch: `n = ngroup - (nprerej + npostrej)` as a scalar.  Scalar Python
division is not domain-guarded; the claims never evaluate this branch at
a vanishing denominator, so plain (total) `ℚ` division is used. -/
def rn_variance_scalar (spec : ExpSpec) (readnoise msqrt : ℚ)
    (rn_fudge excessp1 excessp2 : ℚ) : Except Err ℚ :=
  let n : ℚ := (spec.inputs.ngroup : ℚ) - ((spec.inputs.nprerej : ℚ) + (spec.inputs.npostrej : ℚ))
  let m : ℚ := (eff_m spec : ℚ)
  let tgroup := spec.times.tgroup
  if rn_fudge ≠ 1 ∧ (excessp1 ≠ 0 ∨ excessp2 ≠ 0) then
    .error (.valueError "Only one of rn_fudge or excessp1/p2 maybe used, not both.")
  else
    let base := 12 * readnoise ^ 2 / (m * n * (n ^ 2 - 1) * tgroup ^ 2)
    let v1 := if rn_fudge ≠ 1 then base * rn_fudge else base
    .ok (if excessp1 ≠ 0 ∨ excessp2 ≠ 0 then
      v1 + (12 * (n - 1) / (n + 1) * excessp1 ^ 2 - excessp2 / msqrt) / (((1 - n) * tgroup) ^ 2)
    else v1)

/-- The rejected-group adjustment of `slope_variance` (exposure.py lines
262-267), as a pure function on the copied array: pixels with
`ngroup - ceil(n) < npostrej` get `nprerej` subtracted, then `npostrej`
is subtracted everywhere; the adjustment is active only when a rejection
count is nonzero and `ngroup >= 5`. -/
def slope_variance_adjust (spec : ExpSpec) (n : MArr) : MArr :=
  if (spec.inputs.nprerej ≠ 0 ∨ spec.inputs.npostrej ≠ 0) ∧ 5 ≤ spec.inputs.ngroup then
    let n1 : MArr := n.map (Option.map fun v =>
      if (spec.inputs.ngroup : ℚ) - ((⌈v⌉ : ℤ) : ℚ) < (spec.inputs.npostrej : ℚ) then
        v - (spec.inputs.nprerej : ℚ)
      else v)
    n1.map (Option.map fun v => v - (spec.inputs.npostrej : ℚ))
  else n

/-- Per-pixel body of the total slope variance (exposure.py lines
286-289), Robberto's formula (35) on top of the read-noise variance. -/
def slope_var_pix (m tframe tgroup dark_current : ℚ) (varpp : ℚ) (nO rnO : Option ℚ) :
    Option ℚ :=
  match nO, rnO with
  | some n, some rnv =>
    match mdiv ((6/5) * (n ^ 2 + 1)) (n * (n ^ 2 - 1)),
          mdiv ((5/3) * (m ^ 2 - 1)) (m * (n ^ 2 + 1)) with
    | some a, some b =>
      some (a * ((varpp + dark_current) / tgroup) * (1 - b * (tframe / tgroup)) + rnv)
    | _, _ => none
  | _, _ => none

/-- Embedding of `ExposureSpecification.slope_variance` (exposure.py lines 208-297)
over an explicit store of array cells.  `uref` is the caller's
`unsat_ngroups` cell; `n = ma.copy(unsat_ngroups)` allocates a fresh cell
at the end of the store, and the two in-place rejection updates write to
that cell.  Returns the result (`slope_var`, `slope_rn_var` with `none`
as the NaN fill), the `self` object after the call, and the final store. -/
def slope_variance_heap (spec : ExpSpec) (fp_pix_variance : List ℚ)
    (dark_current readnoise msqrt : ℚ) (uref : ℕ) (rn_fudge excessp1 excessp2 : ℚ)
    (h : List MArr) : Except Err (MArr × MArr) × ExpSpec × List MArr :=
  let nref := h.length
  let h1 := h ++ [h.getD uref []]
  let h2 :=
    if (spec.inputs.nprerej ≠ 0 ∨ spec.inputs.npostrej ≠ 0) ∧ 5 ≤ spec.inputs.ngroup then
      let n0 : List (Option ℚ) := h1.getD nref []
      let h1a := h1.set nref (n0.map (Option.map fun v =>
        if (spec.inputs.ngroup : ℚ) - ((⌈v⌉ : ℤ) : ℚ) < (spec.inputs.npostrej : ℚ) then
          v - (spec.inputs.nprerej : ℚ)
        else v))
      h1a.set nref (((h1a.getD nref [] : List (Option ℚ))).map
        (Option.map fun v => v - (spec.inputs.npostrej : ℚ)))
    else h1
  let n : MArr := h2.getD nref []
  (match rn_variance spec readnoise msqrt n rn_fudge excessp1 excessp2 with
   | .error e => .error e
   | .ok slope_rn_var =>
     .ok (zipWith3 (slope_var_pix (eff_m spec : ℚ) (eff_tframe spec) spec.times.tgroup
            dark_current) fp_pix_variance n slope_rn_var, slope_rn_var),
   spec, h2)

/-- Embedding of `ExposureSpecification.slope_variance` as a function of the value of
the caller's `unsat_ngroups` array (a one-cell store). -/
def slope_variance (spec : ExpSpec) (fp_pix_variance : List ℚ)
    (dark_current readnoise msqrt : ℚ) (unsat_ngroups : MArr)
    (rn_fudge excessp1 excessp2 : ℚ) : Except Err (MArr × MArr) :=
  (slope_variance_heap spec fp_pix_variance dark_current readnoise msqrt 0
    rn_fudge excessp1 excessp2 [unsat_ngroups]).1

/-- Embedding of `rn_variance` over the store: the method performs no in-place array
update and assigns no attribute, so the store and `self` pass through. -/
def rn_variance_heap (spec : ExpSpec) (readnoise msqrt : ℚ) (uref : ℕ)
    (rn_fudge excessp1 excessp2 : ℚ) (h : List MArr) :
    Except Err MArr × ExpSpec × List MArr :=
  (rn_variance spec readnoise msqrt (h.getD uref []) rn_fudge excessp1 excessp2, spec, h)

/-- Embedding of `get_unsaturated_groups` over the store: no in-place update, no
attribute assignment. -/
def get_unsaturated_groups_heap (spec : ExpSpec) (sref : ℕ)
    (fullwell full_saturation : ℚ) (h : List (List ℚ)) :
    MArr × ExpSpec × List (List ℚ) :=
  (get_unsaturated_groups spec (h.getD sref []) fullwell full_saturation, spec, h)

/-- Embedding of the pair-count dispatch of `ExposureSpecificationTA.slope_variance`
(exposure.py lines 522-529): `npairs = ngroup_extract - 1` must be 1
(`min_factor = 1`) or 2 (`min_factor = 2/3`). -/
def taMinFactor (ngroup_extract : ℕ) : Except Err ℚ :=
  let npairs : ℤ := (ngroup_extract : ℤ) - 1
  if npairs = 1 then .ok 1
  else if npairs = 2 then .ok (2/3)
  else .error (.engineInputError "Target acquisition currently only supports 2 or 3 extracted groups.")

/-- Per-pixel body of the TA variance formulas (exposure.py lines
513-534); `textract = tgroup * (n-1)/(nextract-1)` and the divisions by
`textract` are domain-guarded masked-array divisions. -/
def ta_var_pix (m tframe tgroup dark_current min_factor rn nextract : ℚ) (varpp : ℚ)
    (nO : Option ℚ) : Option ℚ × Option ℚ :=
  match nO with
  | none => (none, none)
  | some n =>
    let textract := tgroup * (n - 1) / (nextract - 1)
    match mdiv (min_factor * (2 * rn ^ 2) / m) (textract ^ 2) with
    | none => (none, none)
    | some rnv =>
      match mdiv (min_factor * (varpp + dark_current)) textract,
            mdiv tframe textract with
      | some a, some b =>
        (some (a * (1 - (1/3) * (m ^ 2 - 1) / m * b) + rnv), some rnv)
      | _, _ => (none, some rnv)

/-- Embedding of `ExposureSpecificationTA.slope_variance` (exposure.py lines 447-542):
checks `ngroup_extract <= ngroup`, dispatches on the pair count, then
evaluates the modified MULTIACCUM formulas with `none` as the NaN fill. -/
def ta_slope_variance (spec : ExpSpec) (ngroup_extract : ℕ) (fp_pix_variance : List ℚ)
    (dark_current readnoise : ℚ) (unsat_ngroups : MArr) : Except Err (MArr × MArr) :=
  if spec.inputs.ngroup < ngroup_extract then
    .error (.engineInputError "Number of groups to extract must be less than or equal to the number of groups")
  else
    match taMinFactor ngroup_extract with
    | .error e => .error e
    | .ok min_factor =>
      let pairs := List.zipWith
        (ta_var_pix (eff_m spec : ℚ) (eff_tframe spec) spec.times.tgroup dark_current
          min_factor readnoise (ngroup_extract : ℚ))
        fp_pix_variance unsat_ngroups
      .ok (pairs.map Prod.fst, pairs.map Prod.snd)

/-! Concrete configurations used by the examples and counterexamples. -/

/-- The C1 example configuration: persistent detector, `tframe=10`,
`nframe=1`, `nskip=0`, `ngroup=10`, `nint=1`, `nexp=1`, `tfffr=0`,
`frame0=False`. -/
def c1Inputs : ExposureInputs :=
  ⟨"rapid", 10, 1, 1, 10, 1, 1, 0, 0, "Full", 0, 0, 0, false, "h2rg"⟩

/-- The `ExposureSpecification` built from `c1Inputs`. -/
def c1Spec : ExpSpec := ⟨c1Inputs, get_times_nir c1Inputs, 1, none⟩

/-- A persistent-detector configuration with a single group
(`ngroup=1`, `tframe=1`, everything else minimal). -/
def c2Inputs : ExposureInputs :=
  ⟨"rapid", 1, 1, 1, 1, 1, 1, 0, 0, "Full", 0, 0, 0, false, "h2rg"⟩

/-- The `ExposureSpecification` built from `c2Inputs`. -/
def c2Spec : ExpSpec := ⟨c2Inputs, get_times_nir c2Inputs, 1, none⟩

/-! ## C1 -/

/-- C1 counterexample: the claimed derived values `saturation_time=90`,
`exposure_time=100`, `duty_cycle=9/10` do not match the constructed
`ExposureSpecification` (which has 100, 110 and 9/11). -/
theorem C1_counterexample :
    mkExposureSpecification c1Inputs = .ok c1Spec ∧
      ¬ (c1Spec.times.tgroup = 10 ∧ c1Spec.times.saturation_time = 90 ∧
          c1Spec.times.exposure_time = 100 ∧ c1Spec.times.measurement_time = 90 ∧
          c1Spec.times.duty_cycle = 9/10) := by
  refine ⟨rfl, fun h => ?_⟩
  have h2 := h.2.1
  norm_num [c1Spec, c1Inputs, get_times_nir] at h2

/-- C1 (amended): for the persistent (`h2rg`) configuration with
`tframe=10`, `nframe=1`, `nskip=0`, `ngroup=10`, `nint=1`, `nexp=1`,
`tfffr=0`, `frame0=False`, the derived attributes are `group_time=10`,
`saturation_time=100`, `exposure_time=110`, `measurement_time=90` and
`duty_cycle=9/11`. -/
theorem C1_times :
    mkExposureSpecification c1Inputs = .ok c1Spec ∧
      c1Spec.times.tgroup = 10 ∧ c1Spec.times.saturation_time = 100 ∧
      c1Spec.times.exposure_time = 110 ∧ c1Spec.times.measurement_time = 90 ∧
      c1Spec.times.duty_cycle = 9/11 := by
  refine ⟨rfl, ?_, ?_, ?_, ?_, ?_⟩ <;> norm_num [c1Spec, c1Inputs, get_times_nir]

/-! ## C2 -/

/-- C2 counterexample: at the valid configuration `c2Inputs`
(`ngroup=1`, persistent detector) the constructed specification has
`duty_cycle = 0`, so `0 < duty_cycle ≤ 1` fails. -/
theorem C2_counterexample :
    mkExposureSpecification c2Inputs = .ok c2Spec ∧
      ¬ (0 < c2Spec.times.duty_cycle ∧ c2Spec.times.duty_cycle ≤ 1) := by
  refine ⟨rfl, fun hcl => ?_⟩
  have h0 : c2Spec.times.duty_cycle = 0 := by
    norm_num [c2Spec, c2Inputs, get_times_nir]
  rw [h0] at hcl
  exact lt_irrefl 0 hcl.1

/-- Duty-cycle bounds for the persistent-detector times: positive
measurement requires at least two groups or a zeroth frame. -/
theorem nir_duty_bounds (i : ExposureInputs)
    (hng : 1 ≤ i.ngroup) (hnf : 1 ≤ i.nframe) (htf : 0 < i.tframe) (hff : 0 ≤ i.tfffr)
    (hni : 1 ≤ i.nint) (hh : 2 ≤ i.ngroup ∨ i.frame0 = true) :
    0 < (get_times_nir i).duty_cycle ∧ (get_times_nir i).duty_cycle ≤ 1 := by
  have hf : (1 : ℚ) ≤ (i.nframe : ℚ) := by exact_mod_cast hnf
  have hN : (1 : ℚ) ≤ (i.nint : ℚ) := by exact_mod_cast hni
  have hN0 : (0 : ℚ) < (i.nint : ℚ) := by linarith
  have hf0 : (0 : ℚ) < (i.nframe : ℚ) := by linarith
  have hk : (0 : ℚ) ≤ (i.nskip : ℚ) := by positivity
  have ha : (1 : ℚ) ≤ (i.ngroup : ℚ) := by exact_mod_cast hng
  have hg0 : (0 : ℚ) ≤ (i.ngroup : ℚ) - 1 := by linarith
  have t1 : (0 : ℚ) ≤ ((i.ngroup : ℚ) - 1) * ((i.nframe : ℚ) + (i.nskip : ℚ)) :=
    mul_nonneg hg0 (by linarith)
  have t3 : (0 : ℚ) <
      i.tframe * ((i.nint : ℚ) *
        (((i.ngroup : ℚ) - 1) * ((i.nframe : ℚ) + (i.nskip : ℚ)) + (i.nframe : ℚ))) :=
    mul_pos htf (mul_pos hN0 (by linarith))
  have t4 : (0 : ℚ) < (i.tframe + i.tfffr) * (i.nint : ℚ) := mul_pos (by linarith) hN0
  have t5 : (0 : ℚ) ≤ i.tframe * (i.nint : ℚ) *
      (((i.ngroup : ℚ) - 1) * ((i.nframe : ℚ) + (i.nskip : ℚ))) :=
    mul_nonneg (mul_nonneg htf.le hN0.le) t1
  have t6 : (0 : ℚ) < i.tframe * (i.nint : ℚ) * (i.nframe : ℚ) :=
    mul_pos (mul_pos htf hN0) hf0
  simp only [get_times_nir]
  have hE : (0 : ℚ) <
      (i.tframe + i.tfffr) * (i.nint : ℚ) +
        i.tframe * ((i.nint : ℚ) *
          (((i.ngroup : ℚ) - 1) * ((i.nframe : ℚ) + (i.nskip : ℚ)) + (i.nframe : ℚ))) := by
    linarith
  split_ifs with h0
  · constructor
    · apply div_pos _ hE
      nlinarith [t5, t6]
    · rw [div_le_one hE]
      nlinarith [t4, t6]
  · rcases hh with h2 | h2
    · have ha2 : (2 : ℚ) ≤ (i.ngroup : ℚ) := by exact_mod_cast h2
      have t7 : (0 : ℚ) < i.tframe * (i.nint : ℚ) *
          (((i.ngroup : ℚ) - 1) * ((i.nframe : ℚ) + (i.nskip : ℚ))) :=
        mul_pos (mul_pos htf hN0) (mul_pos (by linarith) (by linarith))
      constructor
      · exact div_pos t7 hE
      · rw [div_le_one hE]
        nlinarith [t4, t6]
    · exact absurd h2 (by simpa using h0)

/-- Duty-cycle bounds for the sample-averaging times: no skipped frames,
and in the bright regime at least two groups must survive rejection. -/
theorem mir_duty_bounds (i : ExposureInputs)
    (hng : 1 ≤ i.ngroup) (hnf : 1 ≤ i.nframe) (htf : 0 < i.tframe) (hff : 0 ≤ i.tfffr)
    (hni : 1 ≤ i.nint) (hskip : i.nskip = 0)
    (hbr : 5 ≤ i.ngroup → i.nprerej + i.npostrej + 2 ≤ i.ngroup) :
    0 < (get_times_mir i).duty_cycle ∧ (get_times_mir i).duty_cycle ≤ 1 := by
  have hf : (1 : ℚ) ≤ (i.nframe : ℚ) := by exact_mod_cast hnf
  have hN : (1 : ℚ) ≤ (i.nint : ℚ) := by exact_mod_cast hni
  have ha : (1 : ℚ) ≤ (i.ngroup : ℚ) := by exact_mod_cast hng
  have hp : (0 : ℚ) ≤ (i.nprerej : ℚ) := by positivity
  have hq : (0 : ℚ) ≤ (i.npostrej : ℚ) := by positivity
  have hN0 : (0 : ℚ) < (i.nint : ℚ) := by linarith
  have hf0 : (0 : ℚ) < (i.nframe : ℚ) := by linarith
  have hgft : (0 : ℚ) < (i.ngroup : ℚ) * (i.nframe : ℚ) * i.tframe :=
    mul_pos (mul_pos (by linarith) hf0) htf
  have hE : (0 : ℚ) <
      (i.nint : ℚ) * (i.tfffr + (i.ngroup : ℚ) * (i.nframe : ℚ) * i.tframe) :=
    mul_pos hN0 (by linarith)
  simp only [get_times_mir, hskip, Nat.cast_zero, add_zero]
  split_ifs with h5
  · have h5' : (5 : ℚ) ≤ (i.ngroup : ℚ) := by exact_mod_cast h5
    have hb : (i.nprerej : ℚ) + (i.npostrej : ℚ) + 2 ≤ (i.ngroup : ℚ) := by
      exact_mod_cast hbr h5
    have h1 : (0 : ℚ) < (i.ngroup : ℚ) - 1 - ((i.nprerej : ℚ) + (i.npostrej : ℚ)) := by
      linarith
    have h2 : (0 : ℚ) < i.tframe * (i.nframe : ℚ) := mul_pos htf hf0
    constructor
    · exact div_pos (mul_pos (mul_pos hN0 h1) h2) hE
    · rw [div_le_one hE]
      have h3 : ((i.ngroup : ℚ) - 1 - ((i.nprerej : ℚ) + (i.npostrej : ℚ))) *
          (i.tframe * (i.nframe : ℚ)) ≤ (i.ngroup : ℚ) * (i.nframe : ℚ) * i.tframe := by
        nlinarith [mul_pos htf hf0]
      nlinarith [mul_le_mul_of_nonneg_left h3 hN0.le, mul_nonneg hN0.le hff]
  · have h4 : (0 : ℚ) < (i.ngroup : ℚ) * (i.tframe * (i.nframe : ℚ)) -
        i.tframe * (1/2) * ((i.nframe : ℚ) - 1) := by
      nlinarith [mul_pos htf hf0, mul_nonneg (by linarith : (0:ℚ) ≤ (i.ngroup : ℚ) - 1) (mul_pos htf hf0).le]
    constructor
    · apply div_pos _ hE
      nlinarith [mul_pos hN0 h4, mul_nonneg hN0.le hff]
    · rw [div_le_one hE]
      have h6 : (0 : ℚ) ≤ (i.nint : ℚ) * i.tframe * (1/2) * ((i.nframe : ℚ) - 1) := by
        apply mul_nonneg
        apply mul_nonneg
        exact mul_nonneg hN0.le htf.le
        norm_num
        linarith
      nlinarith [h6]

/-- C2 (amended): for every valid configuration - both detector types,
`ngroup ≥ 1`, `nframe ≥ 1`, `tframe > 0`, `tfffr ≥ 0`, `nint ≥ 1`,
`nexp ≥ 1`, with the additional provisos that a persistent detector has
`ngroup ≥ 2` or a zeroth frame (else `measurement_time = 0`), and a
sample-averaging detector has `nskip = 0` and, in the bright regime
`ngroup ≥ 5`, at least two groups surviving rejection - the constructed
`ExposureSpecification` satisfies `0 < duty_cycle ≤ 1`,
`total_exposure_time = nexp * exposure_time`,
`total_integrations = nexp * nint` and `nramps = nint * nexp`. -/
theorem C2_invariants (i : ExposureInputs) (s : ExpSpec)
    (hmk : mkExposureSpecification i = .ok s)
    (hng : 1 ≤ i.ngroup) (hnf : 1 ≤ i.nframe) (htf : 0 < i.tframe) (hff : 0 ≤ i.tfffr)
    (hni : 1 ≤ i.nint) (hne : 1 ≤ i.nexp)
    (hh : i.det_type = "h2rg" → 2 ≤ i.ngroup ∨ i.frame0 = true)
    (hs : i.det_type = "sias" →
      i.nskip = 0 ∧ (5 ≤ i.ngroup → i.nprerej + i.npostrej + 2 ≤ i.ngroup)) :
    0 < s.times.duty_cycle ∧ s.times.duty_cycle ≤ 1 ∧
      s.times.total_exposure_time = (i.nexp : ℚ) * s.times.exposure_time ∧
      s.times.total_integrations = i.nexp * i.nint ∧
      s.nramps = i.nint * i.nexp := by
  unfold mkExposureSpecification at hmk
  split_ifs at hmk with hsias hh2rg
  · injection hmk with hmk
    subst hmk
    obtain ⟨hskip, hbr⟩ := hs hsias
    obtain ⟨h1, h2⟩ := mir_duty_bounds i hng hnf htf hff hni hskip hbr
    exact ⟨h1, h2, rfl, rfl, rfl⟩
  · injection hmk with hmk
    subst hmk
    obtain ⟨h1, h2⟩ := nir_duty_bounds i hng hnf htf hff hni (hh hh2rg)
    exact ⟨h1, h2, rfl, rfl, rfl⟩

/-- C2 witness: the amended invariants instantiated at the concrete
persistent configuration `c1Inputs`. -/
theorem C2_witness :
    0 < c1Spec.times.duty_cycle ∧ c1Spec.times.duty_cycle ≤ 1 ∧
      c1Spec.times.total_exposure_time = (c1Inputs.nexp : ℚ) * c1Spec.times.exposure_time ∧
      c1Spec.times.total_integrations = c1Inputs.nexp * c1Inputs.nint ∧
      c1Spec.nramps = c1Inputs.nint * c1Inputs.nexp :=
  C2_invariants c1Inputs c1Spec rfl (by decide) (by decide) (by norm_num [c1Inputs])
    (by norm_num [c1Inputs]) (by decide) (by decide)
    (fun _ => Or.inl (by decide)) (fun h => absurd h (by decide))

/-! ## C6 -/

/-- A sample-averaging configuration in the very-bright regime
(`ngroup=3 < 5`) with nonzero rejection counts. -/
def c6Inputs : ExposureInputs :=
  ⟨"fastr1", 3, 2, 1, 3, 2, 9, 1, 1, "Full", 0, 1, 2, false, "sias"⟩

/-- C6: the sample-averaging measurement time uses the very-bright
formula (independent of `nprerej`/`npostrej`) when `ngroup < 5`, and the
rejection-based formula when `ngroup ≥ 5`. -/
theorem C6_mir_measurement (i : ExposureInputs) :
    (i.ngroup < 5 →
      (get_times_mir i).measurement_time =
        (i.nint : ℚ) * (i.tfffr + (i.ngroup : ℚ) * (get_times_mir i).tgroup) -
          (i.nint : ℚ) * i.tframe * (1/2) * ((i.nframe : ℚ) - 1)) ∧
    (5 ≤ i.ngroup →
      (get_times_mir i).measurement_time =
        (i.nint : ℚ) * ((i.ngroup : ℚ) - 1 - (i.nprerej : ℚ) - (i.npostrej : ℚ)) *
          (get_times_mir i).tgroup) := by
  refine ⟨fun h => ?_, fun h => ?_⟩
  · simp only [get_times_mir]
    rw [if_neg (by omega : ¬ 5 ≤ i.ngroup)]
  · simp only [get_times_mir]
    rw [if_pos h]
    ring

/-- C6 witness: the very-bright formula at the concrete `ngroup=3`
configuration `c6Inputs` (which has `nprerej=1`, `npostrej=2`). -/
theorem C6_witness :
    (get_times_mir c6Inputs).measurement_time =
      (c6Inputs.nint : ℚ) * (c6Inputs.tfffr + (c6Inputs.ngroup : ℚ) * (get_times_mir c6Inputs).tgroup) -
        (c6Inputs.nint : ℚ) * c6Inputs.tframe * (1/2) * ((c6Inputs.nframe : ℚ) - 1) :=
  (C6_mir_measurement c6Inputs).1 (by decide)

/-! ## Maximum-of-a-list lemmas for the saturation estimator -/

theorem foldl_max_init_le (xs : List ℚ) (a : ℚ) : a ≤ xs.foldl max a := by
  induction xs generalizing a with
  | nil => simp
  | cons y ys ih => exact le_trans (le_max_left a y) (ih (max a y))

theorem mem_le_foldl_max (xs : List ℚ) (a x : ℚ) (hx : x ∈ xs) : x ≤ xs.foldl max a := by
  induction xs generalizing a with
  | nil => cases hx
  | cons y ys ih =>
    rcases List.mem_cons.mp hx with h | h
    · subst h
      exact le_trans (le_trans (le_max_right a x) (foldl_max_init_le ys (max a x))) le_rfl
    · exact ih (max a y) h

theorem le_listMax {l : List ℚ} {x : ℚ} (hx : x ∈ l) : x ≤ listMax l := by
  cases l with
  | nil => cases hx
  | cons y ys =>
    rcases List.mem_cons.mp hx with h | h
    · subst h
      simp only [listMax]
      exact foldl_max_init_le ys x
    · simp only [listMax]
      exact mem_le_foldl_max ys y x h

theorem foldl_max_mono (xs : List ℚ) :
    ∀ (ys : List ℚ) (a b : ℚ), xs.length = ys.length →
      (∀ i, i < xs.length → xs.getD i 0 ≤ ys.getD i 0) → a ≤ b →
      xs.foldl max a ≤ ys.foldl max b := by
  induction xs with
  | nil =>
    intro ys a b hlen _ hab
    cases ys with
    | nil => simpa using hab
    | cons y ys' => simp at hlen
  | cons x xs' ih =>
    intro ys a b hlen hpt hab
    cases ys with
    | nil => simp at hlen
    | cons y ys' =>
      simp only [List.foldl_cons]
      apply ih ys' (max a x) (max b y) (by simpa using hlen)
      · intro i hi
        have := hpt (i + 1) (by simpa using Nat.succ_lt_succ hi)
        simpa using this
      · exact max_le_max hab (by simpa using hpt 0 (by simp))

theorem listMax_mono (a b : List ℚ) (hlen : a.length = b.length)
    (hab : ∀ i, i < a.length → a.getD i 0 ≤ b.getD i 0) : listMax a ≤ listMax b := by
  cases a with
  | nil =>
    cases b with
    | nil => simp [listMax]
    | cons y ys => simp at hlen
  | cons x xs =>
    cases b with
    | nil => simp at hlen
    | cons y ys =>
      simp only [listMax]
      apply foldl_max_mono xs ys x y (by simpa using hlen)
      · intro i hi
        have := hab (i + 1) (by simpa using Nat.succ_lt_succ hi)
        simpa using this
      · simpa using hab 0 (by simp)

/-! ## C3 -/

/-- C3 counterexample: on the all-negative slope array `[-1]` the code
clips the slope to `np.max(slope) = -1` (not to the positive floor
`1e-10`), so the pixel comes out fully saturated and masked, while the
claimed formula would leave it unmasked with the full `ngroup=10`. -/
theorem C3_counterexample :
    get_unsaturated_groups c1Spec [-1] 100 2 = [none] ∧
      unsat_groups_specwords c1Spec [-1] 100 2 = [some 10] ∧
      get_unsaturated_groups c1Spec [-1] 100 2 ≠ unsat_groups_specwords c1Spec [-1] 100 2 := by
  have h1 : get_unsaturated_groups c1Spec [-1] 100 2 = [none] := by
    norm_num [get_unsaturated_groups, pixel_count, listMax, npclip, c1Spec, c1Inputs,
      get_times_nir]
  have h2 : unsat_groups_specwords c1Spec [-1] 100 2 = [some 10] := by
    norm_num [unsat_groups_specwords, npclip, c1Spec, c1Inputs, get_times_nir]
  refine ⟨h1, h2, ?_⟩
  rw [h1, h2]
  intro hc
  exact Option.noConfusion (List.cons.inj hc).1

/-- C3 (amended): provided some pixel's slope is at least `1e-10` (so
the upper clip at `np.max(slope)` is inactive), `get_unsaturated_groups`
returns per pixel `floor((fullwell / max(slope, 1e-10)) / saturation_time
* ngroup)` clipped to `[0, ngroup]`, masked exactly when strictly below
the full-saturation threshold, and never raises. -/
theorem C3_unsaturated_groups (spec : ExpSpec) (slope : List ℚ)
    (fullwell full_saturation : ℚ) (hfw : 0 < fullwell)
    (hM : 1/10^10 ≤ listMax slope) :
    get_unsaturated_groups spec slope fullwell full_saturation =
      unsat_groups_specwords spec slope fullwell full_saturation := by
  unfold get_unsaturated_groups unsat_groups_specwords
  apply List.map_congr_left
  intro x hx
  have hxM : x ≤ listMax slope := le_listMax hx
  have hc : npclip x (1/10^10) (listMax slope) = max x (1/10^10) := by
    unfold npclip
    exact min_eq_left (max_le hxM hM)
  have hε : (0 : ℚ) < 1/10^10 := by norm_num
  have hc0 : max x (1/10^10) ≠ 0 :=
    ne_of_gt (lt_of_lt_of_le hε (le_max_right x (1/10^10)))
  simp only [pixel_count, hc, if_neg hc0]

/-- C3 witness: the amended characterization instantiated on the slope
array `[1]` with `fullwell = 100` for the `c1Spec` configuration. -/
theorem C3_witness :
    get_unsaturated_groups c1Spec [1] 100 2 = unsat_groups_specwords c1Spec [1] 100 2 :=
  C3_unsaturated_groups c1Spec [1] 100 2 (by norm_num) (by norm_num [listMax])

/-! ## C9 -/

/-- Pointwise antitonicity of the valid-group count in the slope, valid
as long as the array maxima are at least the `1e-10` floor. -/
theorem pixel_count_antitone (sat : ℚ) (ng : ℕ) (fw Ma Mb x y : ℚ)
    (hfw : 0 < fw) (hsat : 0 < sat) (hεa : 1/10^10 ≤ Ma) (hMab : Ma ≤ Mb)
    (hxM : x ≤ Ma) (hyM : y ≤ Mb) (hxy : x ≤ y) :
    pixel_count sat ng fw Mb y ≤ pixel_count sat ng fw Ma x := by
  have hε : (0 : ℚ) < 1/10^10 := by norm_num
  have hcx : npclip x (1/10^10) Ma = max x (1/10^10) := min_eq_left (max_le hxM hεa)
  have hcy : npclip y (1/10^10) Mb = max y (1/10^10) :=
    min_eq_left (max_le hyM (le_trans hεa hMab))
  have hcx0 : (0 : ℚ) < max x (1/10^10) := lt_of_lt_of_le hε (le_max_right _ _)
  have hcy0 : (0 : ℚ) < max y (1/10^10) := lt_of_lt_of_le hε (le_max_right _ _)
  have hcc : max x (1/10^10) ≤ max y (1/10^10) := max_le_max hxy le_rfl
  unfold pixel_count
  rw [hcx, hcy, if_neg (ne_of_gt hcx0), if_neg (ne_of_gt hcy0)]
  have hmono : fw / max y (1/10^10) / sat * (ng : ℚ) ≤ fw / max x (1/10^10) / sat * (ng : ℚ) := by
    have h1 : fw / max y (1/10^10) ≤ fw / max x (1/10^10) := by gcongr
    have h2 : fw / max y (1/10^10) / sat ≤ fw / max x (1/10^10) / sat := by gcongr
    exact mul_le_mul_of_nonneg_right h2 (by positivity)
  have hfl : ((⌊fw / max y (1/10^10) / sat * (ng : ℚ)⌋ : ℤ) : ℚ) ≤
      ((⌊fw / max x (1/10^10) / sat * (ng : ℚ)⌋ : ℤ) : ℚ) := by
    exact_mod_cast Int.floor_le_floor hmono
  exact min_le_min (max_le_max hfl le_rfl) le_rfl

/-- C9 (amended): for a fixed configuration with positive saturation
time and fullwell, whenever the smaller slope array's maximum is at
least the clip floor `1e-10`, the valid-group count is pointwise
antitone in the slope; and a single-pixel slope small enough
(`0 < slope ≤ fullwell / saturation_time`) yields the full `ngroup`. -/
theorem C9_saturation_antitone (spec : ExpSpec) (a b : List ℚ) (fullwell : ℚ)
    (hfw : 0 < fullwell) (hsat : 0 < spec.times.saturation_time)
    (hMa : 1/10^10 ≤ listMax a) (hlen : a.length = b.length)
    (hab : ∀ i, i < a.length → a.getD i 0 ≤ b.getD i 0) :
    (∀ i, i < a.length →
      pixel_count spec.times.saturation_time spec.inputs.ngroup fullwell
        (listMax b) (b.getD i 0) ≤
      pixel_count spec.times.saturation_time spec.inputs.ngroup fullwell
        (listMax a) (a.getD i 0)) ∧
    (∀ x : ℚ, 0 < x → x ≤ fullwell / spec.times.saturation_time →
      pixel_count spec.times.saturation_time spec.inputs.ngroup fullwell
        (listMax [x]) x = (spec.inputs.ngroup : ℚ)) := by
  constructor
  · intro i hi
    have hmem_a : a.getD i 0 ∈ a := by
      rw [List.getD_eq_getElem a 0 hi]
      exact List.getElem_mem hi
    have hib : i < b.length := hlen ▸ hi
    have hmem_b : b.getD i 0 ∈ b := by
      rw [List.getD_eq_getElem b 0 hib]
      exact List.getElem_mem hib
    exact pixel_count_antitone _ _ _ _ _ _ _ hfw hsat hMa
      (listMax_mono a b hlen hab) (le_listMax hmem_a) (le_listMax hmem_b) (hab i hi)
  · intro x hx hxle
    have hlx : listMax [x] = x := rfl
    have hc : npclip x (1/10^10) x = x := min_eq_right (le_max_left x (1/10^10))
    rw [hlx]
    unfold pixel_count
    rw [hc, if_neg (ne_of_gt hx)]
    have h1 : spec.times.saturation_time ≤ fullwell / x := by
      rw [le_div_iff hx]
      calc spec.times.saturation_time * x = x * spec.times.saturation_time := by ring
        _ ≤ fullwell := (le_div_iff hsat).mp hxle
    have h2 : (1 : ℚ) ≤ fullwell / x / spec.times.saturation_time :=
      (one_le_div hsat).mpr h1
    have h3 : (spec.inputs.ngroup : ℚ) ≤
        fullwell / x / spec.times.saturation_time * (spec.inputs.ngroup : ℚ) :=
      le_mul_of_one_le_left (by positivity) h2
    have h4 : (spec.inputs.ngroup : ℚ) ≤
        ((⌊fullwell / x / spec.times.saturation_time * (spec.inputs.ngroup : ℚ)⌋ : ℤ) : ℚ) := by
      have h5 : (spec.inputs.ngroup : ℤ) ≤
          ⌊fullwell / x / spec.times.saturation_time * (spec.inputs.ngroup : ℚ)⌋ :=
        Int.le_floor.mpr (by exact_mod_cast h3)
      exact_mod_cast h5
    have h6 : (0 : ℚ) ≤
        ((⌊fullwell / x / spec.times.saturation_time * (spec.inputs.ngroup : ℚ)⌋ : ℤ) : ℚ) :=
      le_trans (by positivity) h4
    unfold npclip
    rw [max_eq_left h6, min_eq_right h4]

/-- C9 witness: the small-slope limit at the concrete configuration
`c1Spec` (`saturation_time = 100`, `ngroup = 10`) with `fullwell = 100`
and slope `1`. -/
theorem C9_witness :
    pixel_count c1Spec.times.saturation_time c1Spec.inputs.ngroup 100 (listMax [(1 : ℚ)]) 1 =
      (c1Spec.inputs.ngroup : ℚ) :=
  (C9_saturation_antitone c1Spec [1] [2] 100 (by norm_num)
      (by norm_num [c1Spec, c1Inputs, get_times_nir])
      (by norm_num [listMax]) (by decide)
      (by
        intro i hi
        have h0 : i = 0 := Nat.lt_one_iff.mp (by simpa using hi)
        subst h0
        norm_num)).2
    1 (by norm_num) (by norm_num [c1Spec, c1Inputs, get_times_nir])

/-- C9 counterexample: with the `c1Spec` configuration and
`fullwell = 100`, the single-pixel slope arrays `a = [-1]` and
`b = [1]` satisfy `a ≤ b` pointwise, yet the valid-group count for `b`
(10) exceeds the one for `a` (0, via the negative `np.max` clip). -/
theorem C9_counterexample :
    ((-1 : ℚ) ≤ 1) ∧
      pixel_count c1Spec.times.saturation_time c1Spec.inputs.ngroup 100
        (listMax [(-1 : ℚ)]) (-1) = 0 ∧
      pixel_count c1Spec.times.saturation_time c1Spec.inputs.ngroup 100
        (listMax [(1 : ℚ)]) 1 = 10 ∧
      ¬ (pixel_count c1Spec.times.saturation_time c1Spec.inputs.ngroup 100
            (listMax [(1 : ℚ)]) 1 ≤
          pixel_count c1Spec.times.saturation_time c1Spec.inputs.ngroup 100
            (listMax [(-1 : ℚ)]) (-1)) := by
  have h1 : pixel_count c1Spec.times.saturation_time c1Spec.inputs.ngroup 100
      (listMax [(-1 : ℚ)]) (-1) = 0 := by
    norm_num [pixel_count, listMax, npclip, c1Spec, c1Inputs, get_times_nir]
  have h2 : pixel_count c1Spec.times.saturation_time c1Spec.inputs.ngroup 100
      (listMax [(1 : ℚ)]) 1 = 10 := by
    norm_num [pixel_count, listMax, npclip, c1Spec, c1Inputs, get_times_nir]
  refine ⟨by norm_num, h1, h2, ?_⟩
  rw [h1, h2]
  norm_num

/-! ## C4 -/

theorem rn_variance_configErr (spec : ExpSpec) (rn msqrt : ℚ) (u : MArr)
    (rn_fudge excessp1 excessp2 : ℚ) :
    isConfigErr (rn_variance spec rn msqrt u rn_fudge excessp1 excessp2) =
      decide (rn_fudge ≠ 1 ∧ (excessp1 ≠ 0 ∨ excessp2 ≠ 0)) := by
  unfold rn_variance
  split_ifs with h <;> simp [isConfigErr, h]

theorem rn_variance_scalar_configErr (spec : ExpSpec) (rn msqrt : ℚ)
    (rn_fudge excessp1 excessp2 : ℚ) :
    isConfigErr (rn_variance_scalar spec rn msqrt rn_fudge excessp1 excessp2) =
      decide (rn_fudge ≠ 1 ∧ (excessp1 ≠ 0 ∨ excessp2 ≠ 0)) := by
  unfold rn_variance_scalar
  split_ifs with h <;> simp [isConfigErr, h]

/-- The one-cell-store `slope_variance` unfolded: the copied array is
the rejection-adjusted `unsat_ngroups`, and the result is built from it
and `rn_variance`. -/
theorem slope_variance_eq (spec : ExpSpec) (fp : List ℚ) (dark rn msqrt : ℚ) (u : MArr)
    (rn_fudge excessp1 excessp2 : ℚ) :
    slope_variance spec fp dark rn msqrt u rn_fudge excessp1 excessp2 =
      match rn_variance spec rn msqrt (slope_variance_adjust spec u)
          rn_fudge excessp1 excessp2 with
      | .error e => .error e
      | .ok rnArr =>
        .ok (zipWith3 (slope_var_pix (eff_m spec : ℚ) (eff_tframe spec) spec.times.tgroup dark)
          fp (slope_variance_adjust spec u) rnArr, rnArr) := by
  unfold slope_variance slope_variance_heap slope_variance_adjust
  split_ifs with h <;> simp [List.getD]

theorem slope_variance_configErr (spec : ExpSpec) (fp : List ℚ) (dark rn msqrt : ℚ)
    (u : MArr) (rn_fudge excessp1 excessp2 : ℚ) :
    isConfigErr (slope_variance spec fp dark rn msqrt u rn_fudge excessp1 excessp2) =
      decide (rn_fudge ≠ 1 ∧ (excessp1 ≠ 0 ∨ excessp2 ≠ 0)) := by
  have h := rn_variance_configErr spec rn msqrt (slope_variance_adjust spec u)
    rn_fudge excessp1 excessp2
  rw [slope_variance_eq]
  cases hrn : rn_variance spec rn msqrt (slope_variance_adjust spec u)
      rn_fudge excessp1 excessp2 with
  | error e =>
    rw [hrn] at h
    cases e <;> simp only [isConfigErr] at h ⊢ <;> exact h
  | ok v =>
    rw [hrn] at h
    simp only [isConfigErr] at h ⊢
    exact h

/-- C4: `slope_variance` and `rn_variance` (both branches) raise the
mutual-exclusion configuration error (`ValueError`) exactly when
`rn_fudge ≠ 1` and one of the excess parameters is nonzero; otherwise
the call raises no such error. -/
theorem C4_mutual_exclusion (spec : ExpSpec) (fp : List ℚ) (dark rn msqrt : ℚ)
    (u : MArr) (rn_fudge excessp1 excessp2 : ℚ) :
    isConfigErr (rn_variance spec rn msqrt u rn_fudge excessp1 excessp2) =
        decide (rn_fudge ≠ 1 ∧ (excessp1 ≠ 0 ∨ excessp2 ≠ 0)) ∧
      isConfigErr (rn_variance_scalar spec rn msqrt rn_fudge excessp1 excessp2) =
        decide (rn_fudge ≠ 1 ∧ (excessp1 ≠ 0 ∨ excessp2 ≠ 0)) ∧
      isConfigErr (slope_variance spec fp dark rn msqrt u rn_fudge excessp1 excessp2) =
        decide (rn_fudge ≠ 1 ∧ (excessp1 ≠ 0 ∨ excessp2 ≠ 0)) :=
  ⟨rn_variance_configErr spec rn msqrt u rn_fudge excessp1 excessp2,
   rn_variance_scalar_configErr spec rn msqrt rn_fudge excessp1 excessp2,
   slope_variance_configErr spec fp dark rn msqrt u rn_fudge excessp1 excessp2⟩

/-! ## C5 -/

/-- C5: the TA slope variance raises `EngineInputError` whenever
`ngroup_extract > ngroup`, and whenever `npairs = ngroup_extract - 1` is
neither 1 nor 2; with `ngroup_extract ≤ ngroup` and `npairs ∈ {1, 2}`
the call succeeds and the minimum-of-pairs factor is 1 resp. 2/3. -/
theorem C5_ta_errors (spec : ExpSpec) (e : ℕ) (fp : List ℚ) (dark rn : ℚ) (u : MArr) :
    (spec.inputs.ngroup < e →
      isInputErr (ta_slope_variance spec e fp dark rn u) = true) ∧
    (((e : ℤ) - 1 ≠ 1 ∧ (e : ℤ) - 1 ≠ 2) →
      isInputErr (ta_slope_variance spec e fp dark rn u) = true) ∧
    (e ≤ spec.inputs.ngroup → (e : ℤ) - 1 = 1 →
      taMinFactor e = .ok 1 ∧ isErr (ta_slope_variance spec e fp dark rn u) = false) ∧
    (e ≤ spec.inputs.ngroup → (e : ℤ) - 1 = 2 →
      taMinFactor e = .ok (2/3) ∧ isErr (ta_slope_variance spec e fp dark rn u) = false) := by
  refine ⟨fun hgt => ?_, fun hne => ?_, fun hle h1 => ?_, fun hle h2 => ?_⟩
  · unfold ta_slope_variance
    rw [if_pos hgt]
    rfl
  · unfold ta_slope_variance
    split_ifs with hg
    · rfl
    · unfold taMinFactor
      rw [if_neg hne.1, if_neg hne.2]
      rfl
  · have hm : taMinFactor e = .ok 1 := by
      unfold taMinFactor
      rw [if_pos h1]
    refine ⟨hm, ?_⟩
    unfold ta_slope_variance
    rw [if_neg (not_lt.mpr hle), hm]
    rfl
  · have hm : taMinFactor e = .ok (2/3) := by
      unfold taMinFactor
      rw [if_neg (by omega : ¬ (e : ℤ) - 1 = 1), if_pos h2]
    refine ⟨hm, ?_⟩
    unfold ta_slope_variance
    rw [if_neg (not_lt.mpr hle), hm]
    rfl

/-- C5 witness: at `ngroup_extract = 3 ≤ ngroup = 10` the call succeeds
with `min_factor = 2/3`. -/
theorem C5_witness :
    taMinFactor 3 = .ok (2/3) ∧
      isErr (ta_slope_variance c1Spec 3 [1] 0 1 [some 5]) = false :=
  (C5_ta_errors c1Spec 3 [1] 0 1 [some 5]).2.2.2 (by decide) (by decide)

/-! ## C7 -/

/-- C7: the valid-group count fed into the noise formulas is adjusted
exactly when `ngroup ≥ 5` and a rejection count is nonzero, in which
case every pixel loses `npostrej` groups and pixels with
`ngroup - ceil(n) < npostrej` additionally lose `nprerej`; otherwise the
array is used unchanged. -/
theorem C7_rejection_adjust (spec : ExpSpec) (u : MArr) :
    ((spec.inputs.nprerej ≠ 0 ∨ spec.inputs.npostrej ≠ 0) ∧ 5 ≤ spec.inputs.ngroup →
      slope_variance_adjust spec u = u.map (Option.map fun v =>
        if (spec.inputs.ngroup : ℚ) - ((⌈v⌉ : ℤ) : ℚ) < (spec.inputs.npostrej : ℚ) then
          v - (spec.inputs.nprerej : ℚ) - (spec.inputs.npostrej : ℚ)
        else v - (spec.inputs.npostrej : ℚ))) ∧
    (¬ ((spec.inputs.nprerej ≠ 0 ∨ spec.inputs.npostrej ≠ 0) ∧ 5 ≤ spec.inputs.ngroup) →
      slope_variance_adjust spec u = u) := by
  constructor
  · intro h
    unfold slope_variance_adjust
    rw [if_pos h, List.map_map]
    apply List.map_congr_left
    intro o _
    cases o with
    | none => rfl
    | some v =>
      simp only [Function.comp_apply, Option.map_some']
      split_ifs <;> rfl
  · intro h
    unfold slope_variance_adjust
    rw [if_neg h]

/-- A bright-regime (`ngroup=5`) persistent configuration with one
post-rejected group. -/
def bInputs : ExposureInputs :=
  ⟨"rapid", 5, 1, 1, 1, 1, 1, 0, 0, "Full", 0, 0, 1, false, "h2rg"⟩

/-- The `ExposureSpecification` built from `bInputs`. -/
def specB : ExpSpec := ⟨bInputs, get_times_nir bInputs, 1, none⟩

/-- C7 witness: the adjustment applied to a single-pixel array with 2
valid groups under `specB` (`ngroup=5`, `nprerej=0`, `npostrej=1`). -/
theorem C7_witness :
    slope_variance_adjust specB [some 2] = ([some 2] : MArr).map (Option.map fun v =>
      if (specB.inputs.ngroup : ℚ) - ((⌈v⌉ : ℤ) : ℚ) < (specB.inputs.npostrej : ℚ) then
        v - (specB.inputs.nprerej : ℚ) - (specB.inputs.npostrej : ℚ)
      else v - (specB.inputs.npostrej : ℚ)) :=
  (C7_rejection_adjust specB [some 2]).1 ⟨Or.inr (by decide), by decide⟩

/-! ## C8 -/

/-- An adjusted valid-group count is degenerate when it makes the
`n * (n^2 - 1)` noise denominators vanish (masked entries count as
degenerate: they stay masked). -/
def degen (nO : Option ℚ) : Prop := ∀ v, nO = some v → v * (v ^ 2 - 1) = 0

theorem adjust_length (spec : ExpSpec) (u : MArr) :
    (slope_variance_adjust spec u).length = u.length := by
  unfold slope_variance_adjust
  split_ifs <;> simp [MArr]

theorem zipWith3_length (f : α → β → γ → δ) :
    ∀ (as : List α) (bs : List β) (cs : List γ),
      (zipWith3 f as bs cs).length = min (min as.length bs.length) cs.length := by
  intro as
  induction as with
  | nil => intro bs cs; cases bs <;> cases cs <;> simp [zipWith3]
  | cons a as' ih =>
    intro bs cs
    cases bs with
    | nil => simp [zipWith3]
    | cons b bs' =>
      cases cs with
      | nil => simp [zipWith3]
      | cons c cs' =>
        simp only [zipWith3, List.length_cons, ih]
        omega

theorem zipWith3_getD (f : α → β → γ → δ) (d : δ) (da : α) (db : β) (dc : γ) :
    ∀ (as : List α) (bs : List β) (cs : List γ) (i : ℕ),
      i < as.length → i < bs.length → i < cs.length →
      (zipWith3 f as bs cs).getD i d = f (as.getD i da) (bs.getD i db) (cs.getD i dc) := by
  intro as
  induction as with
  | nil => intro bs cs i hi _ _; simp at hi
  | cons a as' ih =>
    intro bs cs i hia hib hic
    cases bs with
    | nil => simp at hib
    | cons b bs' =>
      cases cs with
      | nil => simp at hic
      | cons c cs' =>
        cases i with
        | zero => simp [zipWith3]
        | succ j =>
          simp only [zipWith3, List.getD_cons_succ]
          exact ih bs' cs' j (by simpa using hia) (by simpa using hib) (by simpa using hic)

theorem getD_map_of_lt (f : Option ℚ → Option ℚ) (l : MArr) (i : ℕ) (hi : i < l.length) :
    (l.map f).getD i (some 0) = f (l.getD i (some 0)) := by
  rw [List.getD_eq_getElem?_getD, List.getD_eq_getElem?_getD, List.getElem?_map,
    List.getElem?_eq_getElem hi]
  rfl

/-- With the default correction parameters (`rn_fudge=1`, no excess
term), the per-pixel read-noise variance is just the guarded base
formula. -/
theorem rn_pix_default (m tgroup rn msqrt : ℚ) (nO : Option ℚ) :
    rn_variance_pix m tgroup rn msqrt 1 0 0 nO =
      nO.bind (fun v => mdiv (12 * rn ^ 2) (m * v * (v ^ 2 - 1) * tgroup ^ 2)) := by
  cases nO with
  | none => rfl
  | some v =>
    simp only [rn_variance_pix, Option.some_bind]
    cases hd : mdiv (12 * rn ^ 2) (m * v * (v ^ 2 - 1) * tgroup ^ 2) with
    | none => rfl
    | some b => norm_num

theorem mdiv_eq_none_iff (a b : ℚ) : mdiv a b = none ↔ b = 0 := by
  unfold mdiv
  split_ifs with h <;> simp [h]

theorem degen_some_iff (v : ℚ) : degen (some v) ↔ v * (v ^ 2 - 1) = 0 := by
  unfold degen
  constructor
  · intro h
    exact h v rfl
  · intro h w hw
    cases hw
    exact h

/-- C8 counterexample: under `specB` (`ngroup=5`, `npostrej=1`) the
saturation map of the slope array `[1]` with `fullwell=2` marks the
pixel valid (2 unsaturated groups, threshold 2), yet after the
post-rejection subtraction the adjusted count is 1, the masked-array
division by `n*(n^2-1) = 0` masks the pixel, and both variance outputs
come out NaN (`none`) there. -/
theorem C8_counterexample :
    get_unsaturated_groups specB [1] 2 2 = [some 2] ∧
      slope_variance specB [0] 0 1 1 (get_unsaturated_groups specB [1] 2 2) 1 0 0 =
        .ok ([none], [none]) := by
  have h1 : get_unsaturated_groups specB [1] 2 2 = [some 2] := by
    norm_num [get_unsaturated_groups, pixel_count, listMax, npclip, specB, bInputs,
      get_times_nir]
  refine ⟨h1, ?_⟩
  rw [h1, slope_variance_eq]
  have h2 : slope_variance_adjust specB [some 2] = [some 1] := by
    norm_num [slope_variance_adjust, specB, bInputs]
  rw [h2]
  have h3 : rn_variance specB 1 1 [some 1] 1 0 0 = .ok [none] := by
    norm_num [rn_variance, rn_variance_pix, mdiv, eff_m, specB, bInputs, get_times_nir]
  rw [h3]
  norm_num [zipWith3, slope_var_pix]

/-- C8 (amended): with the default correction parameters, the two
variance arrays are NaN (`none`) exactly at the pixels whose
rejection-adjusted valid-group count is masked or degenerate
(`n*(n^2-1) = 0`, e.g. a valid pixel reduced to one group by
post-rejection), and are defined everywhere else. -/
theorem C8_nan_characterization (spec : ExpSpec) (fp : List ℚ) (dark rn msqrt : ℚ)
    (u : MArr) (hm : (eff_m spec : ℚ) ≠ 0) (ht : spec.times.tgroup ≠ 0)
    (hlen : fp.length = u.length) :
    ∃ sv rv, slope_variance spec fp dark rn msqrt u 1 0 0 = .ok (sv, rv) ∧
      sv.length = u.length ∧ rv.length = u.length ∧
      ∀ i, i < u.length →
        ((rv.getD i (some 0) = none ↔
            degen ((slope_variance_adjust spec u).getD i (some 0))) ∧
         (sv.getD i (some 0) = none ↔
            degen ((slope_variance_adjust spec u).getD i (some 0)))) := by
  have hnlen := adjust_length spec u
  have hrn : rn_variance spec rn msqrt (slope_variance_adjust spec u) 1 0 0 =
      .ok ((slope_variance_adjust spec u).map
        (rn_variance_pix (eff_m spec : ℚ) spec.times.tgroup rn msqrt 1 0 0)) := by
    unfold rn_variance
    rw [if_neg (by norm_num)]
  refine ⟨_, _, by rw [slope_variance_eq, hrn], ?_, ?_, ?_⟩
  · rw [zipWith3_length]
    simp [MArr, hnlen, hlen]
  · simp [MArr, hnlen]
  · intro i hi
    have hin : i < (slope_variance_adjust spec u).length := by rw [hnlen]; exact hi
    have hrv : ((slope_variance_adjust spec u).map
        (rn_variance_pix (eff_m spec : ℚ) spec.times.tgroup rn msqrt 1 0 0)).getD i (some 0) =
        rn_variance_pix (eff_m spec : ℚ) spec.times.tgroup rn msqrt 1 0 0
          ((slope_variance_adjust spec u).getD i (some 0)) :=
      getD_map_of_lt _ _ i hin
    have hsv : (zipWith3 (slope_var_pix (eff_m spec : ℚ) (eff_tframe spec)
          spec.times.tgroup dark) fp (slope_variance_adjust spec u)
          ((slope_variance_adjust spec u).map
            (rn_variance_pix (eff_m spec : ℚ) spec.times.tgroup rn msqrt 1 0 0))).getD
          i (some 0) =
        slope_var_pix (eff_m spec : ℚ) (eff_tframe spec) spec.times.tgroup dark
          (fp.getD i 0) ((slope_variance_adjust spec u).getD i (some 0))
          (((slope_variance_adjust spec u).map
            (rn_variance_pix (eff_m spec : ℚ) spec.times.tgroup rn msqrt 1 0 0)).getD
            i (some 0)) := by
      apply zipWith3_getD
      · rw [hlen]; exact hi
      · exact hin
      · simpa [MArr, hnlen] using hi
    rw [hsv, hrv, rn_pix_default]
    have htg2 : spec.times.tgroup ^ 2 ≠ 0 := pow_ne_zero 2 ht
    cases hno : (slope_variance_adjust spec u).getD i (some 0) with
    | none =>
      constructor
      · simp [degen]
      · simp [slope_var_pix, degen]
    | some v =>
      have hdenom : (eff_m spec : ℚ) * v * (v ^ 2 - 1) * spec.times.tgroup ^ 2 = 0 ↔
          v * (v ^ 2 - 1) = 0 := by
        constructor
        · intro hz
          rcases mul_eq_zero.mp hz with hz1 | hz2
          · rcases mul_eq_zero.mp hz1 with hz3 | hz4
            · rcases mul_eq_zero.mp hz3 with hz5 | hz6
              · exact absurd hz5 hm
              · rw [hz6, zero_mul]
            · rw [hz4, mul_zero]
          · exact absurd hz2 htg2
        · intro hz
          calc (eff_m spec : ℚ) * v * (v ^ 2 - 1) * spec.times.tgroup ^ 2
              = (eff_m spec : ℚ) * (v * (v ^ 2 - 1)) * spec.times.tgroup ^ 2 := by ring
            _ = 0 := by rw [hz, mul_zero, zero_mul]
      constructor
      · rw [degen_some_iff, Option.some_bind, mdiv_eq_none_iff]
        exact hdenom
      · rw [degen_some_iff]
        constructor
        · intro hnone
          by_contra hv
          have hrno : mdiv (12 * rn ^ 2)
              ((eff_m spec : ℚ) * v * (v ^ 2 - 1) * spec.times.tgroup ^ 2) ≠ none := by
            rw [ne_eq, mdiv_eq_none_iff, hdenom]
            exact hv
          rcases Option.ne_none_iff_exists'.mp hrno with ⟨r, hr⟩
          rw [Option.some_bind, hr] at hnone
          have ha : mdiv ((6/5) * (v ^ 2 + 1)) (v * (v ^ 2 - 1)) ≠ none := by
            rw [ne_eq, mdiv_eq_none_iff]
            intro hz
            exact hv (by linarith [hz] )
          have hb : mdiv ((5/3) * ((eff_m spec : ℚ) ^ 2 - 1))
              ((eff_m spec : ℚ) * (v ^ 2 + 1)) ≠ none := by
            rw [ne_eq, mdiv_eq_none_iff]
            exact mul_ne_zero hm (by positivity)
          rcases Option.ne_none_iff_exists'.mp ha with ⟨a, hA⟩
          rcases Option.ne_none_iff_exists'.mp hb with ⟨b, hB⟩
          rw [slope_var_pix, hA, hB] at hnone
          exact Option.noConfusion hnone
        · intro hv
          have : mdiv (12 * rn ^ 2)
              ((eff_m spec : ℚ) * v * (v ^ 2 - 1) * spec.times.tgroup ^ 2) = none := by
            rw [mdiv_eq_none_iff, hdenom]
            exact hv
          rw [Option.some_bind, this]
          rfl

/-- C8 witness: the characterization instantiated at `specB` with the
single-pixel array `[some 2]` (which the adjustment turns into one
group, a degenerate count). -/
theorem C8_witness :
    ∃ sv rv, slope_variance specB [0] 0 1 1 [some 2] 1 0 0 = .ok (sv, rv) ∧
      sv.length = ([some 2] : MArr).length ∧ rv.length = ([some 2] : MArr).length ∧
      ∀ i, i < ([some 2] : MArr).length →
        ((rv.getD i (some 0) = none ↔
            degen ((slope_variance_adjust specB [some 2]).getD i (some 0))) ∧
         (sv.getD i (some 0) = none ↔
            degen ((slope_variance_adjust specB [some 2]).getD i (some 0)))) :=
  C8_nan_characterization specB [0] 0 1 1 [some 2]
    (by norm_num [eff_m, specB, bInputs])
    (by norm_num [specB, bInputs, get_times_nir]) (by decide)

/-! ## C10 -/

/-- C10: none of the three methods mutates its caller's arrays or
`self`.  `slope_variance` writes only to the freshly allocated copy
(`ma.copy`) of `unsat_ngroups`, so the caller's cell `uref` is unchanged
in the final store; `rn_variance` and `get_unsaturated_groups` perform
no store write at all; each returns `self` unmodified. -/
theorem C10_no_mutation (spec : ExpSpec) (fp : List ℚ) (dark rn msqrt : ℚ)
    (uref sref : ℕ) (rn_fudge excessp1 excessp2 fullwell full_saturation : ℚ)
    (h : List MArr) (hs : List (List ℚ)) (huref : uref < h.length) :
    ((slope_variance_heap spec fp dark rn msqrt uref rn_fudge excessp1 excessp2 h).2.2.getD
        uref [] = h.getD uref [] ∧
      (slope_variance_heap spec fp dark rn msqrt uref rn_fudge excessp1 excessp2 h).2.1 =
        spec) ∧
    ((rn_variance_heap spec rn msqrt uref rn_fudge excessp1 excessp2 h).2.2 = h ∧
      (rn_variance_heap spec rn msqrt uref rn_fudge excessp1 excessp2 h).2.1 = spec) ∧
    ((get_unsaturated_groups_heap spec sref fullwell full_saturation hs).2.2 = hs ∧
      (get_unsaturated_groups_heap spec sref fullwell full_saturation hs).2.1 = spec) := by
  have hne : h.length ≠ uref := (Nat.ne_of_lt huref).symm
  have happ : ∀ x : MArr, (h ++ [x]).getD uref [] = h.getD uref [] := by
    intro x
    rw [List.getD_eq_getElem?_getD, List.getD_eq_getElem?_getD,
      List.getElem?_append_left huref]
  have hsetne : ∀ (l : List MArr) (v : MArr), (l.set h.length v).getD uref [] =
      l.getD uref [] := by
    intro l v
    rw [List.getD_eq_getElem?_getD, List.getD_eq_getElem?_getD, List.getElem?_set_ne hne]
  refine ⟨⟨?_, ?_⟩, ⟨rfl, rfl⟩, ⟨rfl, rfl⟩⟩
  · unfold slope_variance_heap
    split_ifs with hc
    · simp only [hsetne, happ]
    · simp only [happ]
  · unfold slope_variance_heap
    split_ifs <;> rfl

/-- C10 witness: the frame conditions at a concrete one-cell store. -/
theorem C10_witness :
    ((slope_variance_heap specB [0] 0 1 1 0 1 0 0 [[some 2]]).2.2.getD 0 [] =
        ([[some 2]] : List MArr).getD 0 [] ∧
      (slope_variance_heap specB [0] 0 1 1 0 1 0 0 [[some 2]]).2.1 = specB) ∧
    ((rn_variance_heap specB 1 1 0 1 0 0 [[some 2]]).2.2 = [[some 2]] ∧
      (rn_variance_heap specB 1 1 0 1 0 0 [[some 2]]).2.1 = specB) ∧
    ((get_unsaturated_groups_heap specB 0 2 2 [[1]]).2.2 = [[1]] ∧
      (get_unsaturated_groups_heap specB 0 2 2 [[1]]).2.1 = specB) :=
  C10_no_mutation specB [0] 0 1 1 0 0 1 0 0 2 2 [[some 2]] [[1]] (by decide)

end Pandeia
